import Mathlib

/-!
Verification of the VNA notation parser (`src/editor/src/parser.ts`,
`src/editor/src/lib/vna-parser-wasm.ts`) against its natural-language
specification.  The TypeScript code is shallowly embedded: JavaScript
strings become Lean `String` (lists of characters), the class-held scan
cursor becomes an explicit `PState` value threaded through the functions,
and thrown exceptions become `Except.error` results paired with the state
at throw time.
-/

namespace Vna

/-- JS `String.prototype.split` with a single-character separator.
`splitCharGo sep cs acc` scans `cs`, accumulating the current piece in
`acc` (reversed). -/
def splitCharGo (sep : Char) : List Char → List Char → List (List Char)
  | [], acc => [acc.reverse]
  | c :: cs, acc =>
    if c = sep then acc.reverse :: splitCharGo sep cs []
    else splitCharGo sep cs (c :: acc)

/-- Model of JS `s.split(sep)` for a one-character separator. -/
def splitChar (sep : Char) (cs : List Char) : List (List Char) :=
  splitCharGo sep cs []

/-- Model of JS `s.trim()` (drop whitespace from both ends). -/
def trimList (cs : List Char) : List Char :=
  ((cs.dropWhile Char.isWhitespace).reverse.dropWhile Char.isWhitespace).reverse

/-- Model of JS `s.trim()` on strings. -/
def jsTrim (s : String) : String := ⟨trimList s.data⟩

/-- Model of JS `s.startsWith(p)`. -/
def jsStartsWith (s p : String) : Bool := p.data.isPrefixOf s.data

/-- Model of JS `s.endsWith(p)`. -/
def jsEndsWith (s p : String) : Bool := p.data.reverse.isPrefixOf s.data.reverse

/-- Model of JS `beat.trim().split(/\s+/).filter(t => t !== '')`:
split a character list into its maximal whitespace-free words.
`acc` holds the (reversed) word currently being read. -/
def splitWsGo : List Char → List Char → List (List Char)
  | [], acc => if acc = [] then [] else [acc.reverse]
  | c :: cs, acc =>
    if c.isWhitespace then
      if acc = [] then splitWsGo cs []
      else acc.reverse :: splitWsGo cs []
    else splitWsGo cs (c :: acc)

/-- Split into whitespace-separated nonempty words. -/
def splitWs (cs : List Char) : List (List Char) := splitWsGo cs []

/-- Value of a list of decimal digit characters. -/
def digitsVal (ds : List Char) : Nat :=
  ds.foldl (fun a c => a * 10 + (c.toNat - '0'.toNat)) 0

/-- Model of JS `parseInt(s, 10)`: skip leading whitespace, optional
sign, then the maximal run of decimal digits; `none` models `NaN`. -/
def jsParseInt (s : String) : Option Int :=
  let t := s.data.dropWhile Char.isWhitespace
  let (sign, t2) : Int × List Char :=
    match t with
    | '-' :: r => (-1, r)
    | '+' :: r => (1, r)
    | _ => (1, t)
  let ds := t2.takeWhile Char.isDigit
  if ds = [] then none else some (sign * (digitsVal ds : Int))

/-- Parser document model (`interface Metadata`).  Fields are `Option`s
because the JS object is built dynamically; for the numeric fields the
inner `Option Int` models a JS number that may be `NaN` (`none`). -/
structure Metadata where
  title : Option String := none
  raga : Option String := none
  tala : Option String := none
  tempo : Option (Option Int) := none
  gati : Option (Option Int) := none
  composer : Option String := none
  language : Option String := none
  type : Option String := none
  key : Option String := none
  default_octave : Option String := none
  arohanam : Option String := none
  avarohanam : Option String := none
  /-- other `\w+` keys matched by the frontmatter regex are retained -/
  extra : List (String × String) := []
  deriving Repr, DecidableEq

/-- `interface Phrase`. -/
structure Phrase where
  swaras : List String
  sahitya : List String
  phrase_analysis : Option String := none
  line_number : Nat
  beat_positions : List Nat
  gati : Option (Option Int) := none
  deriving Repr, DecidableEq

/-- `interface Section`. -/
structure Section where
  name : String
  phrases : List Phrase
  line_number : Nat
  gati : Option (Option Int) := none
  deriving Repr, DecidableEq

/-- `interface VnaDocument`. -/
structure VnaDocument where
  metadata : Metadata
  sections : List Section
  deriving Repr, DecidableEq

/-- Severity of a `ValidationIssue`. -/
inductive Severity where
  | error
  | warning
  | info
  deriving Repr, DecidableEq

/-- `interface ValidationIssue`. -/
structure ValidationIssue where
  severity : Severity
  message : String
  line : Nat
  column : Option Nat := none
  deriving Repr, DecidableEq

/-- The `VnaParser` instance state: `private lines` and
`private currentLine`. -/
structure PState where
  lines : List String
  currentLine : Nat
  deriving Repr, DecidableEq

/-- A fresh `new VnaParser()`. -/
def initState : PState := ⟨[], 0⟩

namespace VnaParser

/-- `content.split('\n')`. -/
def splitLines (content : String) : List String :=
  (splitChar '\n' content.data).map fun l => ⟨l⟩

/-- `this.currentLineTrimmed()`. -/
def currentLineTrimmed (s : PState) : String :=
  match s.lines[s.currentLine]? with
  | some l => jsTrim l
  | none => ""

/-- `this.advanceLine()`. -/
def advanceLine (s : PState) : PState :=
  { s with currentLine := s.currentLine + 1 }

/-- The token/beat accumulation loop of `parseNotationLine`
(`beats.forEach`): walks the pieces obtained by splitting on `|`,
collecting whitespace-separated tokens and, after every beat except the
last, recording the running token count when it is positive. -/
def notGo : List (List Char) → Nat → List (List Char) × List Nat
  | [], _ => ([], [])
  | [b], _ => (splitWs b, [])
  | b :: rest, pos =>
    let ts := splitWs b
    let pos' := pos + ts.length
    let (ts', ps) := notGo rest pos'
    (ts ++ ts', (if 0 < pos' then [pos'] else []) ++ ps)

/-- `private parseNotationLine(line)`. -/
def parseNotationLine (line : String) : List String × List Nat :=
  let cleanLine :=
    if jsEndsWith line "||" then jsTrim ⟨line.data.dropLast.dropLast⟩
    else jsTrim line
  let r := notGo (splitChar '|' cleanLine.data) 0
  (r.1.map fun w => ⟨w⟩, r.2)

/-- The frontmatter line regex `/^(\w+):\s*"?([^"]*)"?$/` (with JS
backtracking semantics), returning the two captures on a match.  The
key is the maximal leading `\w+` run, which must be followed by `:`;
after optional whitespace the value is read with an optional leading
and trailing quote.  -/
def jsMatchMeta (line : String) : Option (String × String) :=
  let key := line.data.takeWhile fun c => c.isAlphanum || c = '_'
  match line.data.dropWhile (fun c => c.isAlphanum || c = '_') with
  | ':' :: r1 =>
    if key = [] then none
    else
      let r2 := r1.dropWhile Char.isWhitespace
      match r2 with
      | '"' :: t =>
        let cap := t.takeWhile (· ≠ '"')
        match t.dropWhile (· ≠ '"') with
        | [] => some (⟨key⟩, ⟨cap⟩)
        | ['"'] => some (⟨key⟩, ⟨cap⟩)
        | _ => none
      | _ =>
        let cap := r2.takeWhile (· ≠ '"')
        match r2.dropWhile (· ≠ '"') with
        | [] => some (⟨key⟩, ⟨cap⟩)
        | ['"'] => some (⟨key⟩, ⟨cap⟩)
        | _ => none
  | _ => none

/-- `metadata[key] = ...` for one matched frontmatter line: `tempo` and
`gati` go through `parseInt`, every other known interface key stores the
raw value, and unknown keys are retained. -/
def setMeta (m : Metadata) (k v : String) : Metadata :=
  if k = "tempo" then { m with tempo := some (jsParseInt v) }
  else if k = "gati" then { m with gati := some (jsParseInt v) }
  else if k = "title" then { m with title := some v }
  else if k = "raga" then { m with raga := some v }
  else if k = "tala" then { m with tala := some v }
  else if k = "composer" then { m with composer := some v }
  else if k = "language" then { m with language := some v }
  else if k = "type" then { m with type := some v }
  else if k = "key" then { m with key := some v }
  else if k = "default_octave" then { m with default_octave := some v }
  else if k = "arohanam" then { m with arohanam := some v }
  else if k = "avarohanam" then { m with avarohanam := some v }
  else { m with extra := m.extra ++ [(k, v)] }

/-- JS truthiness of a possibly-absent, possibly-`NaN` number:
`undefined`, `NaN` and `0` are falsy. -/
def numTruthy : Option (Option Int) → Bool
  | some (some n) => n ≠ 0
  | _ => false

/-- The `while` loop of `parseMetadata` collecting the raw frontmatter
lines until the closing `---` (with fuel for the loop counter; callers
pass more fuel than there are lines, so the `0` case is unreachable). -/
def metaLoop : Nat → PState → List String × PState
  | 0, s => ([], s)
  | fuel + 1, s =>
    match s.lines[s.currentLine]? with
    | none => ([], s)
    | some line =>
      if jsTrim line = "---" then ([], advanceLine s)
      else
        let (rest, s') := metaLoop fuel (advanceLine s)
        (line :: rest, s')

/-- `private parseMetadata()`. -/
def parseMetadata (s : PState) : Except String Metadata × PState :=
  if ¬ jsStartsWith (currentLineTrimmed s) "---" then
    (.error "Missing YAML frontmatter", s)
  else
    let ml := metaLoop (s.lines.length + 1) (advanceLine s)
    let s1 := ml.2
    let metadata := ml.1.foldl
      (fun m line =>
        match jsMatchMeta line with
        | some (k, v) => setMeta m k v
        | none => m)
      ({} : Metadata)
    if metadata.title = none ∨ metadata.title = some "" ∨
        metadata.raga = none ∨ metadata.raga = some "" ∨
        metadata.tala = none ∨ metadata.tala = some "" then
      (.error "Missing required metadata fields", s1)
    else
      (.ok metadata, s1)

/-- `private parsePhrase()`. -/
def parsePhrase (s : PState) : Except String Phrase × PState :=
  let phraseStartLine := s.currentLine
  let hasGati := jsStartsWith (currentLineTrimmed s) "@gati:"
  let lineGati : Option (Option Int) :=
    if hasGati then some (jsParseInt (jsTrim ⟨(currentLineTrimmed s).data.drop 6⟩))
    else none
  let s1 := if hasGati then advanceLine s else s
  let swaraRes := parseNotationLine (currentLineTrimmed s1)
  let s2 := advanceLine s1
  let sahityaRes := parseNotationLine (currentLineTrimmed s2)
  let s3 := advanceLine s2
  if swaraRes.2 ≠ sahityaRes.2 then
    (.error ("Beat markers misaligned at line " ++ toString (phraseStartLine + 1)), s3)
  else
    let hasPA := jsStartsWith (currentLineTrimmed s3) "phrases = "
    let phraseAnalysis : Option String :=
      if hasPA then some ⟨(currentLineTrimmed s3).data.drop 10⟩ else none
    let s4 := if hasPA then advanceLine s3 else s3
    (.ok { swaras := swaraRes.1, sahitya := sahityaRes.1,
           phrase_analysis := phraseAnalysis,
           line_number := phraseStartLine + 1,
           beat_positions := swaraRes.2,
           gati := lineGati }, s4)

/-- The `while` loop of `parseSection`, accumulating phrases and the
section-level `@gati:` value (last one wins). -/
def sectionLoop : Nat → PState → List Phrase → Option (Option Int) →
    Except String (List Phrase × Option (Option Int)) × PState
  | 0, s, _, _ => (.error "out of fuel", s)
  | fuel + 1, s, phrases, sectionGati =>
    if s.currentLine < s.lines.length then
      let line := currentLineTrimmed s
      if line = "" then sectionLoop fuel (advanceLine s) phrases sectionGati
      else if jsStartsWith line "#" then
        sectionLoop fuel (advanceLine s) phrases sectionGati
      else if jsStartsWith line "@gati:" then
        sectionLoop fuel (advanceLine s) phrases
          (some (jsParseInt (jsTrim ⟨line.data.drop 6⟩)))
      else if jsStartsWith line "[" ∧ jsEndsWith line "]" then
        (.ok (phrases, sectionGati), s)
      else if line.data.contains '|' then
        match parsePhrase s with
        | (.ok ph, s') => sectionLoop fuel s' (phrases ++ [ph]) sectionGati
        | (.error m, s') => (.error m, s')
      else
        (.error ("Unexpected content in section at line " ++ toString (s.currentLine + 1)), s)
    else (.ok (phrases, sectionGati), s)

/-- `private parseSection()`. -/
def parseSection (s : PState) : Except String Section × PState :=
  let line := currentLineTrimmed s
  let sectionLine := s.currentLine
  let name : String := ⟨(line.data.drop 1).dropLast⟩
  match sectionLoop (s.lines.length + 1) (advanceLine s) [] none with
  | (.ok (phrases, sectionGati), s') =>
    (.ok { name := name, phrases := phrases,
           line_number := sectionLine + 1, gati := sectionGati }, s')
  | (.error m, s') => (.error m, s')

/-- The `while` loop of `parseSections`. -/
def sectionsLoop : Nat → PState → List Section → Except String (List Section) × PState
  | 0, s, _ => (.error "out of fuel", s)
  | fuel + 1, s, sections =>
    if s.currentLine < s.lines.length then
      let line := currentLineTrimmed s
      if jsStartsWith line "[" ∧ jsEndsWith line "]" then
        match parseSection s with
        | (.ok sec, s') => sectionsLoop fuel s' (sections ++ [sec])
        | (.error m, s') => (.error m, s')
      else if jsTrim line ≠ "" ∧ ¬ jsStartsWith line "#" then
        (.error ("Unexpected content at line " ++ toString (s.currentLine + 1)), s)
      else sectionsLoop fuel (advanceLine s) sections
    else (.ok sections, s)

/-- `private parseSections()`. -/
def parseSections (s : PState) : Except String (List Section) × PState :=
  sectionsLoop (s.lines.length + 1) s []

/-- `parse(content)`: resets the instance state from `content`, then
reads the metadata and the sections.  The incoming state is discarded,
exactly as the JS assignments `this.lines = …; this.currentLine = 0` do. -/
def parse (content : String) (_s : PState) : Except String VnaDocument × PState :=
  let s0 : PState := ⟨splitLines content, 0⟩
  match parseMetadata s0 with
  | (.error m, s1) => (.error m, s1)
  | (.ok metadata, s1) =>
    match parseSections s1 with
    | (.error m, s2) => (.error m, s2)
    | (.ok sections, s2) => (.ok ⟨metadata, sections⟩, s2)

/-- The metadata warnings of `validate` (unusual tempo / unusual gati). -/
def metaIssues (m : Metadata) : List ValidationIssue :=
  (if numTruthy m.tempo ∧
      ((m.tempo.getD none).getD 0 < 20 ∨ 300 < (m.tempo.getD none).getD 0) then
    [⟨.warning,
      "Unusual tempo: " ++ toString ((m.tempo.getD none).getD 0) ++
        " BPM (typical range: 20-300)", 1, none⟩]
  else []) ++
  (if numTruthy m.gati ∧ ¬ (m.gati.getD none).getD 0 ∈ ([3, 4, 5, 7, 9] : List Int) then
    [⟨.warning,
      "Unusual gati value: " ++ toString ((m.gati.getD none).getD 0) ++
        " (typical values: 3, 4, 5, 7, 9)", 1, none⟩]
  else [])

/-- The per-index token-length error pushed by `validate`. -/
def lenIssue (line i : Nat) (sw sa : String) : ValidationIssue :=
  ⟨.error,
    "Token length mismatch at position " ++ toString (i + 1) ++ ": \"" ++ sw ++
      "\" (" ++ toString sw.length ++ ") vs \"" ++ sa ++ "\" (" ++
      toString sa.length ++ ")",
    line, none⟩

/-- The `for (let i = 0; …)` token-length loop of `validate`, with the
remaining iteration count as a structural fuel argument (callers pass
`sw.length`, which is exactly the number of iterations from `i = 0`). -/
def lenLoop (line : Nat) (sw sa : List String) : Nat → Nat → List ValidationIssue
  | _, 0 => []
  | i, fuel + 1 =>
    if i < sw.length then
      (if (sw.getD i "").length ≠ (sa.getD i "").length then
        [lenIssue line i (sw.getD i "") (sa.getD i "")]
      else []) ++ lenLoop line sw sa (i + 1) fuel
    else []

/-- The per-phrase checks of `validate`: the token-count check
(`continue` on mismatch) followed by the per-token length loop. -/
def phraseIssues (p : Phrase) : List ValidationIssue :=
  if p.swaras.length ≠ p.sahitya.length then
    [⟨.error,
      "Token count mismatch: " ++ toString p.swaras.length ++ " swaras vs " ++
        toString p.sahitya.length ++ " sahitya",
      p.line_number, none⟩]
  else
    lenLoop (p.line_number + 1) p.swaras p.sahitya 0 p.swaras.length

/-- `validate(content)`: parse, then collect the metadata warnings and
the per-phrase issues; a thrown parse error is caught and reported as a
single error-severity issue at the throw-time cursor line. -/
def validate (content : String) (s : PState) : List ValidationIssue × PState :=
  match parse content s with
  | (.ok doc, s') =>
    (metaIssues doc.metadata ++
      (doc.sections.map fun sec => (sec.phrases.map phraseIssues).flatten).flatten, s')
  | (.error m, s') => ([⟨.error, m, s'.currentLine + 1, none⟩], s')

end VnaParser

/-! ## The WASM-integration swara tokenizer
(`src/editor/src/lib/vna-parser-wasm.ts`, `VNAParser.parseSwaraLine`). -/

/-- The apostrophe character `'` (upper-octave marker). -/
def quoteChar : Char := Char.ofNat 39

/-- The upper-octave marker strings. -/
def upper1 : String := ⟨[quoteChar]⟩

/-- Two upper octaves. -/
def upper2 : String := ⟨[quoteChar, quoteChar]⟩

/-- `interface ParsedSwara` as populated by the WASM-integration
tokenizer: the note letter (or `-` for a rest), an optional variant
digit, an optional octave-marker string, and the rest/sustain flags. -/
structure ParsedSwara where
  swara : Char
  variant : Option Char := none
  octave : Option String := none
  isRest : Bool := false
  isSustain : Bool := false
  deriving Repr, DecidableEq

namespace VNAParserWasm

/-- The seven natural note letters. -/
def swaraLetters : List Char := ['S', 'R', 'G', 'M', 'P', 'D', 'N']

/-- The variant-digit check `['1','2','3'].includes(token[i+1])` and the
accompanying `i++`. -/
def stripVariant : List Char → Option Char × List Char
  | [] => (none, [])
  | d :: r => if ['1', '2', '3'].contains d then (some d, r) else (none, d :: r)

theorem stripVariant_length (l : List Char) : (stripVariant l).2.length ≤ l.length := by
  match l with
  | [] => simp [stripVariant]
  | d :: r =>
    simp only [stripVariant]
    split <;> simp

/-- The `while (i < token.length)` scanning loop of `parseSwaraLine`:
`,` and `-` yield sustain/rest units; a note letter consumes an optional
variant digit, then the maximal run of `.` (1 or 2 of them become the
lower-octave marker; otherwise the maximal run of `'` is also consumed
and the combined count, when 1 or 2, becomes the upper-octave marker);
any other character is skipped. -/
def swaraGo (cs : List Char) : List ParsedSwara :=
  match cs with
  | [] => []
  | c :: rest =>
    if c = ',' then ⟨'S', none, none, false, true⟩ :: swaraGo rest
    else if c = '-' then ⟨'-', none, none, true, false⟩ :: swaraGo rest
    else if swaraLetters.contains c then
      let v := stripVariant rest
      let dotCount := (v.2.takeWhile (· = '.')).length
      let r2 := v.2.dropWhile (· = '.')
      if dotCount = 1 then ⟨c, v.1, some ".", false, false⟩ :: swaraGo r2
      else if dotCount = 2 then ⟨c, v.1, some "..", false, false⟩ :: swaraGo r2
      else
        let total := dotCount + (r2.takeWhile (· = quoteChar)).length
        let r3 := r2.dropWhile (· = quoteChar)
        let oct := if total = 1 then some upper1
          else if total = 2 then some upper2 else none
        ⟨c, v.1, oct, false, false⟩ :: swaraGo r3
    else swaraGo rest
termination_by cs.length
decreasing_by
  all_goals
    first
      | (simp only [List.length_cons]; omega)
      | (have h2 := stripVariant_length r
         have h1 : ((stripVariant r).2.dropWhile (· = '.')).length ≤
             (stripVariant r).2.length := (List.dropWhile_sublist _).length_le
         have h0 : (((stripVariant r).2.dropWhile (· = '.')).dropWhile (· = quoteChar)).length ≤
             ((stripVariant r).2.dropWhile (· = '.')).length :=
           (List.dropWhile_sublist _).length_le
         simp only [List.length_cons]
         omega)

/-- `static parseSwaraLine(token)` of the WASM-integration parser:
special cases for the standalone rest and sustain tokens, then the
character scan. -/
def parseSwaraLine (token : String) : List ParsedSwara :=
  if token = "-" then [⟨'-', none, none, true, false⟩]
  else if token = "," then [⟨'S', none, none, false, true⟩]
  else swaraGo token.data

end VNAParserWasm

/-! ## Definitions written from the specification's words
(used to state refinement-style claims and counterexamples). -/

namespace SpecModel

open VNAParserWasm

/-- The scanning loop as the claim words it: a letter optionally
consumes one digit in {1,2,3}, then, when `.` characters follow, a run
of 1 or 2 of them as lower octaves, else, when `'` characters follow, a
run of 1 or 2 of them as upper octaves; a single note never carries
both kinds of marker. -/
def claimSwaraGo (cs : List Char) : List ParsedSwara :=
  match cs with
  | [] => []
  | c :: rest =>
    if c = ',' then ⟨'S', none, none, false, true⟩ :: claimSwaraGo rest
    else if c = '-' then ⟨'-', none, none, true, false⟩ :: claimSwaraGo rest
    else if swaraLetters.contains c then
      let v := stripVariant rest
      let dotRun := (v.2.takeWhile (· = '.')).length
      if 0 < dotRun then
        let k := min dotRun 2
        ⟨c, v.1, some (if k = 1 then "." else ".."), false, false⟩ ::
          claimSwaraGo (v.2.drop k)
      else
        let qRun := (v.2.takeWhile (· = quoteChar)).length
        if 0 < qRun then
          let k := min qRun 2
          ⟨c, v.1, some (if k = 1 then upper1 else upper2), false, false⟩ ::
            claimSwaraGo (v.2.drop k)
        else ⟨c, v.1, none, false, false⟩ :: claimSwaraGo v.2
    else claimSwaraGo rest
termination_by cs.length
decreasing_by
  all_goals
    first
      | (simp only [List.length_cons]; omega)
      | (have h2 := stripVariant_length r
         have h0 : ((stripVariant r).2.drop (min ((stripVariant r).2.takeWhile (· = '.')).length 2)).length ≤
             (stripVariant r).2.length := by
           rw [List.length_drop]; omega
         have h0q : ((stripVariant r).2.drop (min ((stripVariant r).2.takeWhile (· = quoteChar)).length 2)).length ≤
             (stripVariant r).2.length := by
           rw [List.length_drop]; omega
         simp only [List.length_cons]
         omega)

/-- The swara tokenizer as claim C6 describes it. -/
def claimSwaraTokenize (token : String) : List ParsedSwara :=
  claimSwaraGo token.data

/-- The scanning loop as the *amended* claim words it: a letter
optionally consumes one digit in {1,2,3} and then the maximal run of
`.` characters; a run of length 1 or 2 becomes the lower-octave
marker; otherwise (length 0 or ≥ 3) the maximal following run of `'`
is consumed as well, and the combined count of consumed markers becomes
the upper-octave marker when it equals 1 or 2, else the note carries no
octave marker. -/
def amendedSwaraGo (cs : List Char) : List ParsedSwara :=
  match cs with
  | [] => []
  | c :: rest =>
    if c = ',' then ⟨'S', none, none, false, true⟩ :: amendedSwaraGo rest
    else if c = '-' then ⟨'-', none, none, true, false⟩ :: amendedSwaraGo rest
    else if swaraLetters.contains c then
      let v := stripVariant rest
      let dotRun := (v.2.takeWhile (· = '.')).length
      if dotRun = 1 then
        ⟨c, v.1, some ".", false, false⟩ :: amendedSwaraGo (v.2.dropWhile (· = '.'))
      else if dotRun = 2 then
        ⟨c, v.1, some "..", false, false⟩ :: amendedSwaraGo (v.2.dropWhile (· = '.'))
      else
        let r2 := v.2.dropWhile (· = '.')
        let total := dotRun + (r2.takeWhile (· = quoteChar)).length
        ⟨c, v.1,
          (if total = 1 then some upper1 else if total = 2 then some upper2 else none),
          false, false⟩ :: amendedSwaraGo (r2.dropWhile (· = quoteChar))
    else amendedSwaraGo rest
termination_by cs.length
decreasing_by
  all_goals
    first
      | (simp only [List.length_cons]; omega)
      | (have h2 := stripVariant_length r
         have h1 : ((stripVariant r).2.dropWhile (· = '.')).length ≤
             (stripVariant r).2.length := (List.dropWhile_sublist _).length_le
         have h0 : (((stripVariant r).2.dropWhile (· = '.')).dropWhile (· = quoteChar)).length ≤
             ((stripVariant r).2.dropWhile (· = '.')).length :=
           (List.dropWhile_sublist _).length_le
         simp only [List.length_cons]
         omega)

/-- The swara tokenizer as the amended claim C6 describes it. -/
def amendedSwaraTokenize (token : String) : List ParsedSwara :=
  if token = "-" then [⟨'-', none, none, true, false⟩]
  else if token = "," then [⟨'S', none, none, false, true⟩]
  else amendedSwaraGo token.data

/-- A syllable unit of the lyric line (spec §3 `SyllableUnit`). -/
structure SyllableUnit where
  text : String
  isContinuation : Bool
  deriving Repr, DecidableEq

/-- The backtick boundary marker of the sahitya grammar. -/
def backtickChar : Char := Char.ofNat 96

/-- Modelled from the spec: the Sahitya Tokenizer (§4.4) has no
implementation under `src/` (only the alignment validator that the spec
says should consume its unit counts exists there).  A boundary marker
(backtick) splits the token into units; an all-dash token yields one
continuation unit per dash; otherwise the letter run is the first unit
and each trailing dash is its own continuation unit (the documented
best-effort fallback). -/
def sahityaUnits (token : String) : List SyllableUnit :=
  if token.data.contains backtickChar then
    ((splitChar backtickChar token.data).filter (· ≠ [])).map fun w => (⟨⟨w⟩, false⟩ : SyllableUnit)
  else if token.data.all (· = '-') then
    token.data.map fun _ => (⟨"-", true⟩ : SyllableUnit)
  else
    let revd := token.data.reverse
    let stem := (revd.dropWhile (· = '-')).reverse
    let trailing := revd.takeWhile (· = '-')
    (⟨⟨stem⟩, false⟩ : SyllableUnit) :: trailing.map fun _ => (⟨"-", true⟩ : SyllableUnit)

/-- A "pure rest/sustain marker" swara token in the sense of claim C2:
nonempty and made up solely of `-` and `,` characters. -/
def pureRestSustain (t : String) : Bool :=
  t.data ≠ [] && t.data.all fun c => c = '-' || c = ','

/-- Modelled from the spec: the Gati Resolver (§4.5) is exposed as a
query by the rendering boundary and has no implementation under `src/`.
Cascade, highest precedence first: the phrase's line-level gati, the
enclosing section's annotation gati, the document metadata gati, then
the default 4.  (`some none`, a `NaN` stored by `parseInt`, provides no
usable value; token-level overrides do not exist in the parsed
representation.) -/
def effectiveGati (m : Metadata) (sec : Section) (p : Phrase) : Int :=
  match p.gati.getD none with
  | some g => g
  | none =>
    match sec.gati.getD none with
    | some g => g
    | none => (m.gati.getD none).getD 4

end SpecModel

/-! ## General lemmas -/

theorem splitWsGo_mem (cs : List Char) : ∀ (acc : List Char),
    (∀ c ∈ acc, c.isWhitespace = false) →
    ∀ w ∈ splitWsGo cs acc, w ≠ [] ∧ ∀ c ∈ w, c.isWhitespace = false ∧ (c ∈ cs ∨ c ∈ acc) := by
  induction cs with
  | nil =>
    intro acc hacc w hw
    by_cases ha : acc = []
    · simp [splitWsGo, ha] at hw
    · simp only [splitWsGo, if_neg ha, List.mem_singleton] at hw
      subst hw
      refine ⟨by simpa using ha, fun c hc => ?_⟩
      rw [List.mem_reverse] at hc
      exact ⟨hacc c hc, Or.inr hc⟩
  | cons c cs ih =>
    intro acc hacc w hw
    simp only [splitWsGo] at hw
    by_cases hws : c.isWhitespace
    · rw [if_pos hws] at hw
      by_cases ha : acc = []
      · rw [if_pos ha] at hw
        obtain ⟨hne, hprops⟩ := ih [] (by simp) w hw
        refine ⟨hne, fun x hx => ?_⟩
        obtain ⟨h1, h2⟩ := hprops x hx
        rcases h2 with h2 | h2
        · exact ⟨h1, Or.inl (List.mem_cons_of_mem _ h2)⟩
        · simp at h2
      · rw [if_neg ha] at hw
        rcases List.mem_cons.mp hw with hw | hw
        · subst hw
          refine ⟨by simpa using ha, fun x hx => ?_⟩
          rw [List.mem_reverse] at hx
          exact ⟨hacc x hx, Or.inr hx⟩
        · obtain ⟨hne, hprops⟩ := ih [] (by simp) w hw
          refine ⟨hne, fun x hx => ?_⟩
          obtain ⟨h1, h2⟩ := hprops x hx
          rcases h2 with h2 | h2
          · exact ⟨h1, Or.inl (List.mem_cons_of_mem _ h2)⟩
          · simp at h2
    · rw [if_neg hws] at hw
      have hacc2 : ∀ x ∈ c :: acc, x.isWhitespace = false := by
        intro x hx
        rcases List.mem_cons.mp hx with hx | hx
        · subst hx; simpa using hws
        · exact hacc x hx
      obtain ⟨hne, hprops⟩ := ih (c :: acc) hacc2 w hw
      refine ⟨hne, fun x hx => ?_⟩
      obtain ⟨h1, h2⟩ := hprops x hx
      rcases h2 with h2 | h2
      · exact ⟨h1, Or.inl (List.mem_cons_of_mem _ h2)⟩
      · rcases List.mem_cons.mp h2 with h2 | h2
        · subst h2; exact ⟨h1, Or.inl (List.mem_cons_self _ _)⟩
        · exact ⟨h1, Or.inr h2⟩

theorem splitCharGo_mem (sep : Char) (cs : List Char) : ∀ (acc : List Char),
    (∀ c ∈ acc, c ≠ sep) →
    ∀ w ∈ splitCharGo sep cs acc, ∀ c ∈ w, c ≠ sep ∧ (c ∈ cs ∨ c ∈ acc) := by
  induction cs with
  | nil =>
    intro acc hacc w hw x hx
    simp only [splitCharGo, List.mem_singleton] at hw
    subst hw
    rw [List.mem_reverse] at hx
    exact ⟨hacc x hx, Or.inr hx⟩
  | cons c cs ih =>
    intro acc hacc w hw x hx
    simp only [splitCharGo] at hw
    by_cases hc : c = sep
    · rw [if_pos hc] at hw
      rcases List.mem_cons.mp hw with hw | hw
      · subst hw
        rw [List.mem_reverse] at hx
        exact ⟨hacc x hx, Or.inr hx⟩
      · obtain ⟨h1, h2⟩ := ih [] (by simp) w hw x hx
        rcases h2 with h2 | h2
        · exact ⟨h1, Or.inl (List.mem_cons_of_mem _ h2)⟩
        · simp at h2
    · rw [if_neg hc] at hw
      have hacc2 : ∀ y ∈ c :: acc, y ≠ sep := by
        intro y hy
        rcases List.mem_cons.mp hy with hy | hy
        · subst hy; exact hc
        · exact hacc y hy
      obtain ⟨h1, h2⟩ := ih (c :: acc) hacc2 w hw x hx
      rcases h2 with h2 | h2
      · exact ⟨h1, Or.inl (List.mem_cons_of_mem _ h2)⟩
      · rcases List.mem_cons.mp h2 with h2 | h2
        · subst h2; exact ⟨h1, Or.inl (List.mem_cons_self _ _)⟩
        · exact ⟨h1, Or.inr h2⟩

namespace VnaParser

theorem notGo_mem (beats : List (List Char)) : ∀ (pos : Nat),
    ∀ w ∈ (notGo beats pos).1, ∃ b ∈ beats, w ∈ splitWs b := by
  induction beats with
  | nil => intro pos w hw; simp [notGo] at hw
  | cons b rest ih =>
    intro pos w hw
    cases rest with
    | nil =>
      simp only [notGo] at hw
      exact ⟨b, List.mem_cons_self _ _, hw⟩
    | cons b2 rs =>
      simp only [notGo] at hw
      rcases List.mem_append.mp hw with hw | hw
      · exact ⟨b, List.mem_cons_self _ _, hw⟩
      · obtain ⟨b3, hb3, hw3⟩ := ih _ w hw
        exact ⟨b3, List.mem_cons_of_mem _ hb3, hw3⟩

theorem notGo_bounds (beats : List (List Char)) : ∀ (pos : Nat),
    ∀ q ∈ (notGo beats pos).2, 0 < q ∧ pos ≤ q ∧ q ≤ pos + (notGo beats pos).1.length := by
  induction beats with
  | nil => intro pos q hq; simp [notGo] at hq
  | cons b rest ih =>
    intro pos q hq
    cases rest with
    | nil => simp [notGo] at hq
    | cons b2 rs =>
      simp only [notGo] at hq ⊢
      rcases List.mem_append.mp hq with hq | hq
      · by_cases hp : 0 < pos + (splitWs b).length
        · rw [if_pos hp] at hq
          simp only [List.mem_singleton] at hq
          subst hq
          refine ⟨hp, Nat.le_add_right _ _, ?_⟩
          simp only [List.length_append]
          omega
        · rw [if_neg hp] at hq; simp at hq
      · obtain ⟨h0, h1, h2⟩ := ih (pos + (splitWs b).length) q hq
        refine ⟨h0, by omega, ?_⟩
        simp only [List.length_append]
        omega

theorem notGo_sorted (beats : List (List Char)) : ∀ (pos : Nat),
    List.Pairwise (· ≤ ·) (notGo beats pos).2 := by
  induction beats with
  | nil => intro pos; simp [notGo]
  | cons b rest ih =>
    intro pos
    cases rest with
    | nil => simp [notGo]
    | cons b2 rs =>
      simp only [notGo]
      rw [List.pairwise_append]
      refine ⟨?_, ih _, ?_⟩
      · split <;> simp
      · intro a ha q hq
        have hb := (notGo_bounds (b2 :: rs) (pos + (splitWs b).length) q hq).2.1
        split at ha
        · simp only [List.mem_singleton] at ha
          subst ha
          exact hb
        · simp at ha

end VnaParser

namespace VNAParserWasm

theorem swaraGo_eq_amendedGo (cs : List Char) : swaraGo cs = SpecModel.amendedSwaraGo cs := by
  induction cs using swaraGo.induct <;> rw [swaraGo, SpecModel.amendedSwaraGo] <;>
    (try simp_all) <;> split_ifs <;> simp_all

end VNAParserWasm

namespace VnaParser

theorem parsePhrase_error_msg (s : PState) (m : String) (s2 : PState)
    (h : parsePhrase s = (.error m, s2)) :
    m = "Beat markers misaligned at line " ++ toString (s.currentLine + 1) := by
  unfold parsePhrase at h
  dsimp only at h
  split_ifs at h <;>
    first
      | (exact Except.noConfusion ((Prod.mk.injEq _ _ _ _).mp h).1)
      | (exact (Except.error.inj ((Prod.mk.injEq _ _ _ _).mp h).1).symm)

theorem validate_error_eq (content : String) (s : PState) (m : String) (s2 : PState)
    (h : parse content s = (.error m, s2)) :
    (validate content s).1 = [⟨.error, m, s2.currentLine + 1, none⟩] := by
  unfold validate
  rw [h]

theorem parseMetadata_ok_required (s : PState) (md : Metadata) (s2 : PState)
    (h : parseMetadata s = (.ok md, s2)) :
    md.title ≠ none ∧ md.title ≠ some "" ∧ md.raga ≠ none ∧ md.raga ≠ some "" ∧
      md.tala ≠ none ∧ md.tala ≠ some "" := by
  unfold parseMetadata at h
  dsimp only at h
  split_ifs at h with h1 h2 <;>
    first
      | (exact Except.noConfusion ((Prod.mk.injEq _ _ _ _).mp h).1)
      | (have hmd := Except.ok.inj ((Prod.mk.injEq _ _ _ _).mp h).1
         subst hmd
         push_neg at h2
         exact h2)

theorem parse_ok_required (content : String) (s : PState) (d : VnaDocument) (s2 : PState)
    (h : parse content s = (.ok d, s2)) :
    d.metadata.title ≠ none ∧ d.metadata.title ≠ some "" ∧
    d.metadata.raga ≠ none ∧ d.metadata.raga ≠ some "" ∧
    d.metadata.tala ≠ none ∧ d.metadata.tala ≠ some "" := by
  unfold parse at h
  dsimp only at h
  rcases h1 : parseMetadata ⟨splitLines content, 0⟩ with ⟨r1, st1⟩
  rw [h1] at h
  cases r1 with
  | error m =>
    dsimp only at h
    exact Except.noConfusion ((Prod.mk.injEq _ _ _ _).mp h).1
  | ok md =>
    dsimp only at h
    rcases h2 : parseSections st1 with ⟨r2, st2⟩
    rw [h2] at h
    cases r2 with
    | error m =>
      dsimp only at h
      exact Except.noConfusion ((Prod.mk.injEq _ _ _ _).mp h).1
    | ok secs =>
      dsimp only at h
      have hd := Except.ok.inj ((Prod.mk.injEq _ _ _ _).mp h).1
      rw [← hd]
      exact parseMetadata_ok_required _ _ _ h1

theorem parse_no_frontmatter (content : String) (s : PState)
    (h : jsStartsWith (currentLineTrimmed ⟨splitLines content, 0⟩) "---" = false) :
    (parse content s).1 = .error "Missing YAML frontmatter" := by
  unfold parse parseMetadata
  simp [h]

theorem lenLoop_eq (line : Nat) (sw sa : List String) :
    ∀ (fuel i : Nat), sw.length ≤ i + fuel →
    lenLoop line sw sa i fuel =
      ((List.range' i (sw.length - i)).filter fun j =>
        (sw.getD j "").length ≠ (sa.getD j "").length).map fun j =>
        lenIssue line j (sw.getD j "") (sa.getD j "") := by
  intro fuel
  induction fuel with
  | zero =>
    intro i hi
    have h0 : sw.length - i = 0 := by omega
    simp [lenLoop, h0]
  | succ fuel ih =>
    intro i hi
    by_cases hlt : i < sw.length
    · have hn : sw.length - i = (sw.length - (i + 1)) + 1 := by omega
      rw [lenLoop, if_pos hlt, hn, List.range'_succ, List.filter_cons,
        ih (i + 1) (by omega)]
      by_cases hne : (sw[i]?.getD "").length = (sa[i]?.getD "").length
      · simp [List.getD, hne]
      · simp [List.getD, hne]
    · have h0 : sw.length - i = 0 := by omega
      rw [lenLoop, if_neg hlt]
      simp [h0]

end VnaParser


/-! ## Concrete inputs used by the claims -/

/-- A minimal well-formed frontmatter block. -/
def fmPlain : String := "---\ntitle: x\nraga: y\ntala: z\n---\n"

/-- Two phrases; the first has misaligned beat markers (swara beats
`[2]`, sahitya beats `[1]`), the second a 2-vs-3 token-count mismatch. -/
def badInput : String :=
  fmPlain ++ "[pallavi]\nS R | G ||\na | b c ||\nS, | G, ||\nab | cd ef ||"

/-- Frontmatter with all required fields but no closing `---`. -/
def noCloseInput : String := "---\ntitle: x\nraga: y\ntala: z"

/-- Frontmatter assigning non-numeric values to `tempo` and `gati`. -/
def tempoInput : String :=
  "---\ntitle: x\nraga: y\ntala: z\ntempo: abc\ngati: xyz\n---"

/-- Document gati 4, a section `@gati: 3`, one phrase, then `@gati: 5`
immediately before a second phrase (a line-level override per the spec). -/
def g7Input : String :=
  "---\ntitle: x\nraga: y\ntala: z\ngati: 4\n---\n[pallavi]\n@gati: 3\nS, | G, ||\na- | b- ||\n@gati: 5\nR, | M, ||\nc- | d- ||"

/-- One phrase whose swara token `SRGR` (4 characters) sits over the
sahitya token `yun-` (4 raw characters but 2 syllable units). -/
def c2Input : String := fmPlain ++ "[pallavi]\nSRGR ||\nyun- ||"

/-- The document parsed from `g7Input`: the `@gati: 5` line was
swallowed as a section-level annotation (last one wins), so the section
records gati 5 and neither phrase records a line-level gati. -/
def g7Meta : Metadata :=
  { title := some "x", raga := some "y", tala := some "z", gati := some (some 4) }

/-- First phrase of `g7Input`. -/
def g7P1 : Phrase :=
  { swaras := ["S,", "G,"], sahitya := ["a-", "b-"], line_number := 9,
    beat_positions := [1] }

/-- Second phrase of `g7Input` (the one the `@gati: 5` line precedes). -/
def g7P2 : Phrase :=
  { swaras := ["R,", "M,"], sahitya := ["c-", "d-"], line_number := 12,
    beat_positions := [1] }

/-- Section of `g7Input` as parsed. -/
def g7Sec : Section :=
  { name := "pallavi", phrases := [g7P1, g7P2], line_number := 7,
    gati := some (some 5) }

/-- The scenario input of claim C5 (spec §8). -/
def c5Input : String :=
  "---\ntitle: \"Test\"\nraga: \"mohanam\"\ntala: \"adi\"\n---\n[pallavi]\nG,G, R,,, | SSRR GGRR ||\nninn ukō- | ri-- ---- ||"

/-- A phrase with equal token counts and one raw length mismatch, used
to witness the amended per-token length check. -/
def cpPhrase : Phrase :=
  { swaras := ["S,"], sahitya := ["abc"], line_number := 3, beat_positions := [] }

/-! ## Claims -/

open VnaParser VNAParserWasm SpecModel

/-- C1 counterexample: on `badInput` the first phrase has misaligned
beat markers; the claim says the mismatch is recoverable and sibling
phrases are still validated, but the code throws: `parse` produces no
document, and `validate` returns only the single thrown diagnostic, so
the second phrase's token-count mismatch is never reported. -/
theorem c1_counterexample :
    (parse badInput initState).1 = .error "Beat markers misaligned at line 7" ∧
    (validate badInput initState).1 =
      [⟨.error, "Beat markers misaligned at line 7", 9, none⟩] :=
  ⟨rfl, rfl⟩

/-- C1 (amended): a beat-marker mismatch inside a phrase throws an
error whose message cites the phrase's first source line; `validate`
catches any parse failure and reports it as a single error-severity
diagnostic, and parsing is aborted (no further phrase or section is
processed, so no other diagnostic appears). -/
theorem c1_amended_thm :
    (∀ (content : String) (s : PState) (m : String) (s2 : PState),
      parse content s = (.error m, s2) →
      (validate content s).1 = [⟨.error, m, s2.currentLine + 1, none⟩]) ∧
    (∀ (s : PState) (m : String) (s2 : PState),
      parsePhrase s = (.error m, s2) →
      m = "Beat markers misaligned at line " ++ toString (s.currentLine + 1)) :=
  ⟨validate_error_eq, parsePhrase_error_msg⟩

/-- Witness for C1 at `badInput`: the single caught diagnostic, and the
thrown message citing the phrase's source line 7. -/
theorem c1_witness :
    (validate badInput initState).1 =
      [⟨.error, "Beat markers misaligned at line 7", 9, none⟩] ∧
    "Beat markers misaligned at line 7" =
      "Beat markers misaligned at line " ++ toString (6 + 1) :=
  ⟨c1_amended_thm.1 badInput initState "Beat markers misaligned at line 7"
      ⟨splitLines badInput, 8⟩ rfl,
    c1_amended_thm.2 ⟨splitLines badInput, 6⟩ "Beat markers misaligned at line 7"
      ⟨splitLines badInput, 8⟩ rfl⟩

/-- C2 counterexample: in `c2Input` the swara token `SRGR` is not a
rest/sustain marker, its character count is 4, and tokenizing the
sahitya token `yun-` yields 2 syllable units — so the claim demands an
error diagnostic — yet `validate` returns no diagnostic at all, because
the code compares raw string lengths (4 = 4), not syllable-unit counts. -/
theorem c2_counterexample :
    (parse c2Input initState).1 =
      .ok ⟨{ title := some "x", raga := some "y", tala := some "z" },
        [{ name := "pallavi",
           phrases := [{ swaras := ["SRGR"], sahitya := ["yun-"],
                         line_number := 7, beat_positions := [] }],
           line_number := 6 }]⟩ ∧
    pureRestSustain "SRGR" = false ∧
    ("SRGR" : String).length = 4 ∧
    (sahityaUnits "yun-").length = 2 ∧
    (validate c2Input initState).1 = [] :=
  ⟨rfl, rfl, rfl, rfl, rfl⟩

/-- C2 (amended): when the token counts agree, `validate` compares the
raw character lengths of the swara and sahitya token strings at every
index (rest/sustain tokens included), and emits exactly one error
diagnostic — naming the 1-based index and both token texts — for each
index at which the raw lengths differ. -/
theorem c2_amended_thm (p : Phrase) (h : p.swaras.length = p.sahitya.length) :
    phraseIssues p =
      ((List.range p.swaras.length).filter fun i =>
        (p.swaras.getD i "").length ≠ (p.sahitya.getD i "").length).map fun i =>
        lenIssue (p.line_number + 1) i (p.swaras.getD i "") (p.sahitya.getD i "") := by
  unfold phraseIssues
  rw [if_neg (fun hn => hn h), lenLoop_eq p.line_number.succ p.swaras p.sahitya
    p.swaras.length 0 (by omega), List.range_eq_range']
  rfl

/-- Witness for C2 at a concrete phrase with one raw-length mismatch. -/
theorem c2_witness :
    phraseIssues cpPhrase = [lenIssue 4 0 "S," "abc"] :=
  (c2_amended_thm cpPhrase rfl).trans rfl

/-- C3: `validate` is a total function (the embedding returns normally
on every input), and its result is either the diagnostics of a
successfully parsed document or a list containing an error-severity
entry for the caught fatal failure. -/
theorem c3_validate_total (content : String) (s : PState) :
    (∃ d s2, parse content s = (.ok d, s2)) ∨
    ∃ i ∈ (validate content s).1, i.severity = .error := by
  rcases h : parse content s with ⟨r, s2⟩
  cases r with
  | ok d => exact Or.inl ⟨d, s2, rfl⟩
  | error m =>
    right
    rw [validate_error_eq content s m s2 h]
    exact ⟨_, List.mem_singleton_self _, rfl⟩

/-- C4 counterexample: `noCloseInput` has an opening delimiter and all
three required fields but no closing `---`; the claim says parsing
fails fatally, yet `parse` succeeds, consuming the rest of the file as
frontmatter and producing a document with no sections. -/
theorem c4_counterexample :
    ((splitLines noCloseInput).filter fun l => jsTrim l = "---").length = 1 ∧
    (parse noCloseInput initState).1 =
      .ok ⟨{ title := some "x", raga := some "y", tala := some "z" }, []⟩ :=
  ⟨rfl, rfl⟩

/-- C4 (amended): an input whose first line does not start with the
opening delimiter fails fatally with `Missing YAML frontmatter`, and a
missing or empty required field (title/raga/tala) is fatal — every
produced document carries all three present and non-empty; a missing
closing delimiter alone, however, is not fatal: the remaining lines are
consumed as frontmatter and the parse can succeed. -/
theorem c4_amended_thm :
    (∀ (content : String) (s : PState),
      jsStartsWith (currentLineTrimmed ⟨splitLines content, 0⟩) "---" = false →
      (parse content s).1 = .error "Missing YAML frontmatter") ∧
    (∀ (content : String) (s : PState) (d : VnaDocument) (s2 : PState),
      parse content s = (.ok d, s2) →
      d.metadata.title ≠ none ∧ d.metadata.title ≠ some "" ∧
      d.metadata.raga ≠ none ∧ d.metadata.raga ≠ some "" ∧
      d.metadata.tala ≠ none ∧ d.metadata.tala ≠ some "") :=
  ⟨parse_no_frontmatter, parse_ok_required⟩

/-- Witness for C4: an input with no frontmatter fails fatally, and the
document parsed from `noCloseInput` has a non-absent raga. -/
theorem c4_witness :
    (parse "x" initState).1 = .error "Missing YAML frontmatter" ∧
    (⟨{ title := some "x", raga := some "y", tala := some "z" }, []⟩ :
      VnaDocument).metadata.raga ≠ none :=
  ⟨c4_amended_thm.1 "x" initState rfl,
    (c4_amended_thm.2 noCloseInput initState
      ⟨{ title := some "x", raga := some "y", tala := some "z" }, []⟩
      ⟨splitLines noCloseInput, 4⟩ rfl).2.2.1⟩

/-- C5: the spec's scenario input parses to title `Test`, one section
`pallavi`, one phrase with the four swara and four sahitya tokens, beat
positions `[2]`, and `validate` returns no diagnostics at all (in
particular none of error severity). -/
theorem c5_scenario :
    (parse c5Input initState).1 =
      .ok ⟨{ title := some "Test", raga := some "mohanam", tala := some "adi" },
        [{ name := "pallavi",
           phrases := [{ swaras := ["G,G,", "R,,,", "SSRR", "GGRR"],
                         sahitya := ["ninn", "ukō-", "ri--", "----"],
                         line_number := 7, beat_positions := [2] }],
           line_number := 6 }]⟩ ∧
    (validate c5Input initState).1 = [] ∧
    ((validate c5Input initState).1.filter fun i => i.severity = .error) = [] :=
  ⟨rfl, rfl, rfl⟩

/-- C6 counterexample: on the token `S...` the tokenizer described by
the claim consumes a run of two `.` characters as a two-octave-down
marker, but the code consumes all three dots and, finding their count
outside {1,2}, attaches no octave marker at all. -/
theorem c6_counterexample :
    parseSwaraLine "S..." = [⟨'S', none, none, false, false⟩] ∧
    claimSwaraTokenize "S..." = [⟨'S', none, some "..", false, false⟩] ∧
    parseSwaraLine "S..." ≠ claimSwaraTokenize "S..." := by
  have h1 : parseSwaraLine "S..." = [⟨'S', none, none, false, false⟩] := by
    simp only [parseSwaraLine]
    rw [swaraGo]
    simp [stripVariant, swaraLetters]
    rw [swaraGo]
  have h2 : claimSwaraTokenize "S..." = [⟨'S', none, some "..", false, false⟩] := by
    simp only [claimSwaraTokenize]
    rw [claimSwaraGo]
    simp [stripVariant, swaraLetters]
    rw [claimSwaraGo]
    simp [swaraLetters]
    rw [claimSwaraGo]
  refine ⟨h1, h2, ?_⟩
  rw [h1, h2]
  simp

/-- C6 (amended): the tokenizer yields one rest per `-` and one sustain
per `,`; a letter in {S,…,N} starts a natural that optionally consumes
one digit in {1,2,3} as variant and then the maximal run of `.`
characters — a run of length 1 or 2 becomes the lower-octave marker,
otherwise (0 or ≥ 3) the maximal following run of `\'` is consumed too
and the combined count becomes the upper-octave marker when it is 1 or
2, else no octave marker; a note never carries both marker kinds. -/
theorem c6_amended_thm (t : String) : parseSwaraLine t = amendedSwaraTokenize t := by
  unfold parseSwaraLine amendedSwaraTokenize
  split_ifs <;> simp [swaraGo_eq_amendedGo]

/-- C7: evaluating the code on `g7Input` (document gati 4, section
annotation gati 3, a `@gati: 5` line immediately before the second
phrase).  The line-level branch of `parsePhrase` is unreachable because
`parseSection` consumes every `@gati:` line first, so the section
records gati 5 (last one wins), no phrase records a line-level gati,
and the spec's resolver assigns effective gati 5 to *both* phrases —
the claim (and spec §4.5/§8) expects the first phrase to keep 3 and
only the second to become 5. -/
theorem c7_code_behavior :
    (parse g7Input initState).1 = .ok ⟨g7Meta, [g7Sec]⟩ ∧
    g7Sec.gati = some (some 5) ∧ g7P1.gati = none ∧ g7P2.gati = none ∧
    effectiveGati g7Meta g7Sec g7P1 = 5 ∧
    effectiveGati g7Meta g7Sec g7P2 = 5 :=
  ⟨rfl, rfl, rfl, rfl, rfl, rfl⟩

/-- C8 counterexample: `tempoInput` assigns non-numeric values to
`tempo` and `gati`; the claim says parsing fails fatally naming the
field, but `parse` succeeds and stores the `NaN` produced by
`parseInt` (modelled as the inner `none`). -/
theorem c8_counterexample :
    jsParseInt "abc" = none ∧
    (parse tempoInput initState).1 =
      .ok ⟨{ title := some "x", raga := some "y", tala := some "z",
             tempo := some none, gati := some none }, []⟩ :=
  ⟨rfl, rfl⟩

/-- C8 (amended): a non-numeric `tempo`/`gati` is stored as `NaN`
without any error or mention of the field: the document is produced
and, `NaN` being falsy, even the unusual-range warnings are skipped, so
`validate` returns no diagnostic at all for `tempoInput`. -/
theorem c8_amended_thm :
    (parse tempoInput initState).1 =
      .ok ⟨{ title := some "x", raga := some "y", tala := some "z",
             tempo := some none, gati := some none }, []⟩ ∧
    (validate tempoInput initState).1 = [] :=
  ⟨rfl, rfl⟩

/-- C9: `parse` overwrites the instance state from its input before
doing anything else, so its result is a function of the input text
alone: it is identical for any two starting states, unaffected by an
earlier parse of different content on the same instance, and
`validate` inherits the same independence. -/
theorem c9_parse_pure :
    (∀ (content : String) (s1 s2 : PState),
      (parse content s1).1 = (parse content s2).1) ∧
    (∀ (content other : String) (s : PState),
      (parse content (parse other s).2).1 = (parse content s).1) ∧
    (∀ (content : String) (s : PState),
      (validate content s).1 = (validate content initState).1) :=
  ⟨fun _ _ _ => rfl, fun _ _ _ => rfl, fun _ _ => rfl⟩

/-- C10: for every input line, the notation-line splitter returns
tokens that are nonempty and free of whitespace and `|`, and beat
positions that are non-decreasing, at least 1, and at most the number
of returned tokens. -/
theorem c10_notation_line_invariants (line : String) :
    (∀ t ∈ (parseNotationLine line).1,
      t ≠ "" ∧ ∀ c ∈ t.data, c.isWhitespace = false ∧ c ≠ '|') ∧
    List.Pairwise (· ≤ ·) (parseNotationLine line).2 ∧
    ∀ p ∈ (parseNotationLine line).2,
      1 ≤ p ∧ p ≤ (parseNotationLine line).1.length := by
  unfold parseNotationLine
  dsimp only
  refine ⟨?_, notGo_sorted _ 0, ?_⟩
  · intro t ht
    rw [List.mem_map] at ht
    obtain ⟨w, hw, rfl⟩ := ht
    obtain ⟨b, hb, hwb⟩ := notGo_mem _ 0 w hw
    obtain ⟨hne, hprops⟩ := splitWsGo_mem b [] (by simp) w hwb
    constructor
    · intro hemp
      exact hne (congrArg String.data hemp)
    · intro c hc
      obtain ⟨hws, hcw⟩ := hprops c hc
      refine ⟨hws, ?_⟩
      rcases hcw with hcw | hcw
      · exact (splitCharGo_mem '|' _ [] (by simp) b hb c hcw).1
      · simp at hcw
  · intro p hp
    have h := notGo_bounds _ 0 p hp
    refine ⟨h.1, ?_⟩
    rw [List.length_map]
    omega

end Vna
